import Mathlib

/-
Verification development for the plugin discovery, resolution and lifecycle
subsystem (marketplace scanning, registry-backed path resolution, MCP config
extraction, TTL caching, install/uninstall).

The TypeScript source is embedded shallowly:
- Filesystem and external-process effects are abstracted as oracles collected
  in an environment record (Env for read-only filesystem queries, InstallEnv
  and UninstallEnv for the outcomes of the fallible steps of an install or
  uninstall run).
- The persisted registry document (installed_plugins.json) and the two
  module-level cache slots are threaded explicitly as a World value.
- JSON documents read from plugin descriptor files are modelled by an
  inductive Json type; objects are represented as association lists as
  produced by JSON.parse (duplicate keys already collapsed, insertion order
  kept).
- Date.now() is passed in as a natural-number parameter; timestamps recorded
  in cache slots use the same value for the check and the population of a
  single call.
- Every catch block of the source that swallows an error and continues is
  modelled by totality of the corresponding Lean function; a catch block that
  converts an error into a result value is modelled by the corresponding
  Option-valued outcome field of the environment.
-/

namespace Plugins

/-! ## JSON values

Models the result of JSON.parse as used by the MCP descriptor reader.
Objects carry their fields in insertion order with distinct keys (JSON.parse
collapses duplicates, last one wins, before the code ever sees the value). -/

inductive Json where
  | null
  | bool (b : Bool)
  | num (n : Int)
  | str (s : String)
  | arr (elems : List Json)
  | obj (fields : List (String × Json))

/-- Models JavaScript property access `doc.k` followed by use of the value:
returns the field value for an object, and none (undefined) for every other
shape (arrays, strings, numbers have no such named property). -/
def lookupField (doc : Json) (k : String) : Option Json :=
  match doc with
  | Json.obj fields => (fields.find? (fun q => q.1 = k)).map (fun q => q.2)
  | _ => none

/-- Models Object.entries: fields of an object, index-keyed elements of an
array, index-keyed single-character strings for a string, and the empty list
for every other primitive. -/
def jsEntries (doc : Json) : List (String × Json) :=
  match doc with
  | Json.obj fields => fields
  | Json.arr elems => elems.enum.map (fun q => (toString q.1, q.2))
  | Json.str s => s.toList.enum.map (fun q => (toString q.1, Json.str (String.singleton q.2)))
  | _ => []

/-- The test `v && typeof v === "object" && !Array.isArray(v)` from the
source: true exactly for non-null, non-array objects (null is falsy, arrays
are excluded explicitly, and objects are always truthy). -/
def isObjVal : Json → Bool
  | Json.obj _ => true
  | _ => false

/-! ## Path strings -/

/-- Models path.join of two segments. -/
def joinP (a b : String) : String := a ++ "/" ++ b

/-- Models a startsWith test against a one-character prefix (the source
only ever tests the prefixes "." and "/"). -/
def startsWithChar (s : String) (c : Char) : Bool :=
  match s.data with
  | c2 :: _ => c2 == c
  | [] => false

/-- Models path.resolve(base, s): an absolute path is kept, a relative one is
joined to the base. Normalization of dot segments is not modelled; the
filesystem oracles are keyed on the unnormalized join. -/
def resolvePath (base s : String) : String :=
  if startsWithChar s '/' then s else joinP base s

def marketplacesDirOf (home : String) : String :=
  joinP (joinP (joinP home ".claude") "plugins") "marketplaces"

def manifestPathOf (home d : String) : String :=
  joinP (joinP (joinP (marketplacesDirOf home) d) ".claude-plugin") "marketplace.json"

def cacheBaseOf (home marketplace pluginName : String) : String :=
  joinP (joinP (joinP (joinP (joinP home ".claude") "plugins") "cache") marketplace) pluginName

/-! ## Data model (from the interfaces of the source) -/

/-- The polymorphic manifest field `source: string | { source, url }`.
absent covers a missing, null or otherwise falsy non-string value; urlObj
carries the url property of the object variant (none when the property is
missing, and the empty string stands in for any falsy url). -/
inductive SourceField where
  | absent
  | str (s : String)
  | urlObj (url : Option String)
deriving DecidableEq

/-- The truthiness test `!plugin.source`: an object is always truthy, a
string is truthy when non-empty. -/
def sourceTruthy : SourceField → Bool
  | SourceField.absent => false
  | SourceField.str s => if s = "" then false else true
  | SourceField.urlObj _ => true

structure MarketplacePlugin where
  name : String
  version : Option String
  description : Option String
  source : SourceField
  category : Option String
  homepage : Option String
  tags : Option (List String)
deriving DecidableEq

/-- Parsed marketplace.json. plugins = none models a document whose plugins
field fails the Array.isArray check. -/
structure MarketplaceJson where
  name : String
  plugins : Option (List MarketplacePlugin)

structure PluginInfo where
  name : String
  version : String
  description : Option String
  path : String
  source : String
  marketplace : String
  category : Option String
  homepage : Option String
  tags : Option (List String)
deriving DecidableEq

structure AvailablePlugin where
  name : String
  description : Option String
  marketplace : String
  sourceUrl : String
  category : Option String
  homepage : Option String
  tags : Option (List String)
deriving DecidableEq

structure PluginMcpConfig where
  pluginSource : String
  mcpServers : List (String × Json)

structure InstalledPluginEntry where
  scope : String
  installPath : String
  version : String
  installedAt : String
  lastUpdated : String
  gitCommitSha : Option String
deriving DecidableEq

structure InstalledPluginsJson where
  version : Nat
  plugins : List (String × List InstalledPluginEntry)
deriving DecidableEq

/-! ## String-keyed maps (JavaScript Map with set/get/has) -/

def mapSet (m : List (String × String)) (k v : String) : List (String × String) :=
  (m.filter (fun q => q.1 ≠ k)) ++ [(k, v)]

def mapGet (m : List (String × String)) (k : String) : Option String :=
  (m.find? (fun q => q.1 = k)).map (fun q => q.2)

def mapHas (m : List (String × String)) (k : String) : Bool :=
  (m.find? (fun q => q.1 = k)).isSome

/-! ## Registry reading (loadInstalledPluginPaths)

reg = none models a missing or unparsable installed_plugins.json (the catch
branch of the source returns the empty map). -/

/-- One step of the loadInstalledPluginPaths loop: a key with a non-empty
sequence contributes its most recent (last) entry when that entry carries a
truthy installPath. -/
def installedPathsStep (acc : List (String × String))
    (kv : String × List InstalledPluginEntry) : List (String × String) :=
  match kv.2.getLast? with
  | some latest =>
    if latest.installPath = "" then acc else mapSet acc kv.1 latest.installPath
  | none => acc

def loadInstalledPluginPaths (reg : Option InstalledPluginsJson) : List (String × String) :=
  match reg with
  | none => []
  | some data => data.plugins.foldl installedPathsStep []

/-! ## Environment and process state -/

/-- Read-only filesystem oracles, one per kind of query the source issues.
readdir returns the directory-entry names (none models a thrown readdir);
isDirentDir models the isDirentDirectory helper; readManifest and readMcp
return the parsed document of the file at the given path, with none covering
both a failed read and a JSON parse failure (both are skipped identically by
the source); statIsDir models fs.stat(p).isDirectory() with a failed stat
counting as false. -/
structure Env where
  home : String
  accessOk : String → Bool
  readdir : String → Option (List String)
  isDirentDir : String → String → Bool
  readManifest : String → Option MarketplaceJson
  statIsDir : String → Bool
  readMcp : String → Option Json

/-- The two module-level cache slots: payload plus population timestamp. -/
structure CacheState where
  pluginCache : Option (List PluginInfo × Nat)
  mcpCache : Option (List PluginMcpConfig × Nat)

/-- Process-visible mutable state: the persisted registry document (none =
missing or corrupt on disk) and the cache slots. -/
structure World where
  registry : Option InstalledPluginsJson
  cache : CacheState

def CACHE_TTL_MS : Nat := 30000

def clearPluginCache (_c : CacheState) : CacheState :=
  { pluginCache := none, mcpCache := none }

/-! ## Path resolution (the two-step policy inside discoverInstalledPlugins) -/

/-- Step 1 of resolution: the installed_plugins.json lookup. The guard on the
empty string models the `if (installedPath)` truthiness test. -/
def registryPath (env : Env) (ips : List (String × String)) (key : String) : Option String :=
  match mapGet ips key with
  | some ip => if ip = "" then none else if env.statIsDir ip then some ip else none
  | none => none

/-- Steps 1 and 2 of resolution for one manifest entry: prefer the registry
path when it is a directory, else resolve a string source relative to the
marketplace directory and accept it only when it is a directory. -/
def resolvePluginPath (env : Env) (marketplacePath mpName : String)
    (ips : List (String × String)) (p : MarketplacePlugin) : Option String :=
  match registryPath env ips (p.name ++ "@" ++ mpName) with
  | some ip => some ip
  | none =>
    match p.source with
    | SourceField.str s =>
      let resolved := resolvePath marketplacePath s
      if env.statIsDir resolved then some resolved else none
    | _ => none

/-- The `plugin.version || "0.0.0"` default. -/
def versionOrDefault : Option String → String
  | some s => if s = "" then "0.0.0" else s
  | none => "0.0.0"

/-- The body of the per-entry loop of discoverInstalledPlugins: skip falsy
sources, resolve the path, and assemble the PluginInfo record. -/
def processPlugin (env : Env) (marketplacePath mpName : String)
    (ips : List (String × String)) (p : MarketplacePlugin) : Option PluginInfo :=
  if sourceTruthy p.source then
    match resolvePluginPath env marketplacePath mpName ips p with
    | some pluginPath =>
      some { name := p.name
             version := versionOrDefault p.version
             description := p.description
             path := pluginPath
             source := mpName ++ ":" ++ p.name
             marketplace := mpName
             category := p.category
             homepage := p.homepage
             tags := p.tags }
    | none => none
  else none

/-- Per-marketplace step of discoverInstalledPlugins: skip dot-prefixed
names and non-directories, read and parse the manifest, require an array of
plugins, then process each entry in order. -/
def scanMarketplace (env : Env) (ips : List (String × String)) (d : String) : List PluginInfo :=
  if startsWithChar d '.' then []
  else if env.isDirentDir (marketplacesDirOf env.home) d then
    match env.readManifest (manifestPathOf env.home d) with
    | some mj =>
      match mj.plugins with
      | some ps => ps.filterMap (processPlugin env (joinP (marketplacesDirOf env.home) d) mj.name ips)
      | none => []
    | none => []
  else []

/-- The full filesystem scan of discoverInstalledPlugins (everything after
the cache check): missing or unreadable marketplaces root yields the empty
list, otherwise every marketplace is scanned against the registry map. -/
def scanInstalledPlugins (env : Env) (reg : Option InstalledPluginsJson) : List PluginInfo :=
  if env.accessOk (marketplacesDirOf env.home) then
    match env.readdir (marketplacesDirOf env.home) with
    | some ds =>
      let ips := loadInstalledPluginPaths reg
      (ds.map (scanMarketplace env ips)).flatten
    | none => []
  else []

/-- Cache-miss path of discoverInstalledPlugins: scan, then populate the
plugin cache slot with the result and the current time. The source also
populates the slot on each of its early returns; those returns all store the
plugin list accumulated so far, which this single populate point reproduces. -/
def scanAndCachePlugins (env : Env) (w : World) (now : Nat) : List PluginInfo × World :=
  let plugins := scanInstalledPlugins env w.registry
  (plugins, { w with cache := { w.cache with pluginCache := some (plugins, now) } })

/-- discoverInstalledPlugins: serve from the plugin cache slot when it is
younger than the TTL, otherwise scan and repopulate. -/
def discoverInstalledPlugins (env : Env) (w : World) (now : Nat) : List PluginInfo × World :=
  match w.cache.pluginCache with
  | some c => if now - c.2 < CACHE_TTL_MS then (c.1, w) else scanAndCachePlugins env w now
  | none => scanAndCachePlugins env w now

/-! ## MCP config extraction (discoverPluginMcpServers) -/

/-- The chosen servers object: the value of the mcpServers key when that
value is a truthy non-array object, otherwise the whole document. -/
def serversObjOf (parsed : Json) : Json :=
  match lookupField parsed "mcpServers" with
  | some (Json.obj fields) => Json.obj fields
  | _ => parsed

/-- The validated server map: the entries of the chosen object whose value
is a non-null, non-array object. -/
def validServersOf (parsed : Json) : List (String × Json) :=
  (jsEntries (serversObjOf parsed)).filter (fun q => isObjVal q.2)

/-- Per-plugin step of discoverPluginMcpServers: read and parse .mcp.json
(missing file or malformed JSON skips the plugin), validate the server map,
and emit a record only when at least one entry survived. -/
def mcpConfigFor (env : Env) (plugin : PluginInfo) : Option PluginMcpConfig :=
  match env.readMcp (joinP plugin.path ".mcp.json") with
  | some parsed =>
    let validServers := validServersOf parsed
    if validServers.isEmpty then none
    else some { pluginSource := plugin.source, mcpServers := validServers }
  | none => none

/-- Cache-miss path of discoverPluginMcpServers: run plugin discovery (which
may itself fill the plugin cache slot), extract configs, populate the mcp
cache slot. -/
def scanAndCacheMcp (env : Env) (w : World) (now : Nat) : List PluginMcpConfig × World :=
  let r := discoverInstalledPlugins env w now
  let configs := r.1.filterMap (mcpConfigFor env)
  (configs, { r.2 with cache := { r.2.cache with mcpCache := some (configs, now) } })

/-- discoverPluginMcpServers: serve from the mcp cache slot when it is
younger than the TTL, otherwise rescan and repopulate. -/
def discoverPluginMcpServers (env : Env) (w : World) (now : Nat) : List PluginMcpConfig × World :=
  match w.cache.mcpCache with
  | some c => if now - c.2 < CACHE_TTL_MS then (c.1, w) else scanAndCacheMcp env w now
  | none => scanAndCacheMcp env w now

/-- getPluginComponentPaths: the three component subpaths, no existence
check. -/
def getPluginComponentPaths (plugin : PluginInfo) : String × String × String :=
  (joinP plugin.path "commands", joinP plugin.path "skills", joinP plugin.path "agents")

/-! ## Available (not-yet-installed) plugin discovery -/

/-- Per-entry step of discoverAvailablePlugins: the source must be the
object variant with a truthy url, and the composite key must be absent from
the registry map. -/
def availEntry (ips : List (String × String)) (mjName : String)
    (p : MarketplacePlugin) : Option AvailablePlugin :=
  match p.source with
  | SourceField.urlObj (some u) =>
    if u = "" then none
    else if mapHas ips (p.name ++ "@" ++ mjName) then none
    else
      some { name := p.name
             description := p.description
             marketplace := mjName
             sourceUrl := u
             category := p.category
             homepage := p.homepage
             tags := p.tags }
  | _ => none

/-- Per-marketplace step of discoverAvailablePlugins (same traversal as the
installed scan). -/
def scanAvailMarketplace (env : Env) (ips : List (String × String)) (d : String) :
    List AvailablePlugin :=
  if startsWithChar d '.' then []
  else if env.isDirentDir (marketplacesDirOf env.home) d then
    match env.readManifest (manifestPathOf env.home d) with
    | some mj =>
      match mj.plugins with
      | some ps => ps.filterMap (availEntry ips mj.name)
      | none => []
    | none => []
  else []

/-- discoverAvailablePlugins: uncached traversal emitting url-sourced
entries absent from the registry. -/
def discoverAvailablePlugins (env : Env) (reg : Option InstalledPluginsJson) :
    List AvailablePlugin :=
  if env.accessOk (marketplacesDirOf env.home) then
    match env.readdir (marketplacesDirOf env.home) with
    | some ds =>
      let ips := loadInstalledPluginPaths reg
      (ds.map (scanAvailMarketplace env ips)).flatten
    | none => []
  else []

/-! ## Install -/

/-- Outcomes of the fallible steps of one installPlugin run, in the order
the source performs them. A some value is the message of the error the step
throws; pkgVersion is some v exactly when package.json was read and parsed
and its version field is a string (v may be empty: the source assigns any
string); gitSha is the trimmed rev-parse output when that step succeeds.
cleanupFails and rmOldVersionFails model the two fs.rm calls whose errors
the source swallows; they influence nothing. -/
structure InstallEnv where
  home : String
  mkdirErr : Option String
  cleanupFails : Bool
  cloneErr : Option String
  pkgVersion : Option String
  gitSha : Option String
  rmOldVersionFails : Bool
  renameErr : Option String
  writeErr : Option String
  nowIso : String

structure InstallResult where
  success : Bool
  installPath : Option String
  error : Option String
deriving DecidableEq

/-- readInstalledPluginsJson: default empty version-2 document on a missing
or unparsable file. -/
def readInstalledPluginsJson (w : World) : InstalledPluginsJson :=
  match w.registry with
  | some doc => doc
  | none => { version := 2, plugins := [] }

/-- The registry append: push onto the existing sequence for the key, or
create the key at the end of the document. -/
def pushEntry (doc : InstalledPluginsJson) (key : String) (e : InstalledPluginEntry) :
    InstalledPluginsJson :=
  if (doc.plugins.find? (fun kv => kv.1 = key)).isSome then
    { doc with plugins := doc.plugins.map (fun kv => if kv.1 = key then (kv.1, kv.2 ++ [e]) else kv) }
  else
    { doc with plugins := doc.plugins ++ [(key, [e])] }

/-- installPlugin. The outer try/catch of the source converts any thrown
error into a failure result; this is modelled by each error outcome mapping
to a failure value with the world untouched. The swallowed staging-cleanup
failure, the version-read failure (default "0.0.0"), the rev-parse failure
(sha omitted) and the swallowed removal of a pre-existing versioned
directory do not abort the run. The registry write happens after the move;
on write failure the caches are not cleared and the persisted document is
modelled as unchanged. -/
def installPlugin (ienv : InstallEnv) (marketplace pluginName _sourceUrl : String)
    (w : World) : InstallResult × World :=
  match ienv.mkdirErr with
  | some msg => ({ success := false, installPath := none, error := some msg }, w)
  | none =>
    match ienv.cloneErr with
    | some msg => ({ success := false, installPath := none, error := some msg }, w)
    | none =>
      let version := ienv.pkgVersion.getD "0.0.0"
      match ienv.renameErr with
      | some msg => ({ success := false, installPath := none, error := some msg }, w)
      | none =>
        let installPath := joinP (cacheBaseOf ienv.home marketplace pluginName) version
        let data := readInstalledPluginsJson w
        let key := pluginName ++ "@" ++ marketplace
        let entry : InstalledPluginEntry :=
          { scope := "user"
            installPath := installPath
            version := version
            installedAt := ienv.nowIso
            lastUpdated := ienv.nowIso
            gitCommitSha := ienv.gitSha }
        let data2 := pushEntry data key entry
        match ienv.writeErr with
        | some msg => ({ success := false, installPath := none, error := some msg }, w)
        | none =>
          ({ success := true, installPath := some installPath, error := none },
           { registry := some data2, cache := clearPluginCache w.cache })

/-! ## Uninstall -/

/-- Outcomes of the fallible steps of one uninstallPlugin run. rmFails
models the swallowed fs.rm failure; writeErr the registry write. -/
structure UninstallEnv where
  rmFails : Bool
  writeErr : Option String

structure UninstallResult where
  success : Bool
  error : Option String
deriving DecidableEq

/-- Full outcome of an uninstall run; removedDir is the directory handed to
fs.rm, when the latest entry for the key carries a truthy path. -/
structure UninstallOut where
  result : UninstallResult
  world : World
  removedDir : Option String

/-- uninstallPlugin: best-effort removal of the latest entry's directory,
unconditional deletion of the whole key, persist, clear caches. A write
failure surfaces as a failure result with the world untouched (the removal,
already attempted, is still reported). -/
def uninstallPlugin (uenv : UninstallEnv) (marketplace pluginName : String)
    (w : World) : UninstallOut :=
  let key := pluginName ++ "@" ++ marketplace
  let data := readInstalledPluginsJson w
  let removedDir : Option String :=
    match data.plugins.find? (fun kv => kv.1 = key) with
    | some kv =>
      match kv.2.getLast? with
      | some latest => if latest.installPath = "" then none else some latest.installPath
      | none => none
    | none => none
  let data2 : InstalledPluginsJson :=
    { data with plugins := data.plugins.filter (fun kv => kv.1 ≠ key) }
  match uenv.writeErr with
  | some msg =>
    { result := { success := false, error := some msg }, world := w, removedDir := removedDir }
  | none =>
    { result := { success := true, error := none }
      world := { registry := some data2, cache := clearPluginCache w.cache }
      removedDir := removedDir }

/-! ## Helper lemmas -/

lemma joinP_ne_empty (a b : String) : joinP a b ≠ "" := by
  intro h
  have hl := congrArg String.length h
  have h0 : ("" : String).length = 0 := rfl
  have h1 : ("/" : String).length = 1 := rfl
  simp only [joinP, String.length_append, h0, h1] at hl
  omega

lemma resolvePath_ne_empty (base s : String) : resolvePath base s ≠ "" := by
  unfold resolvePath
  split
  · next hs =>
    intro h
    subst h
    unfold startsWithChar at hs
    exact Bool.noConfusion hs
  · exact joinP_ne_empty base s

lemma registryPath_some (env : Env) (ips : List (String × String)) (k ip : String)
    (h : registryPath env ips k = some ip) :
    mapGet ips k = some ip ∧ ip ≠ "" ∧ env.statIsDir ip = true := by
  unfold registryPath at h
  cases hm : mapGet ips k with
  | none =>
    rw [hm] at h
    exact Option.noConfusion h
  | some x =>
    rw [hm] at h
    have h2 : (if x = "" then (none : Option String)
               else if env.statIsDir x = true then some x else none) = some ip := h
    by_cases hx : x = ""
    · rw [if_pos hx] at h2
      exact Option.noConfusion h2
    · rw [if_neg hx] at h2
      by_cases hd : env.statIsDir x = true
      · rw [if_pos hd] at h2
        injection h2 with h3
        subst h3
        exact ⟨rfl, hx, hd⟩
      · rw [if_neg hd] at h2
        exact Option.noConfusion h2

lemma resolvePluginPath_some (env : Env) (marketplacePath mpName : String)
    (ips : List (String × String)) (p : MarketplacePlugin) (pp : String)
    (h : resolvePluginPath env marketplacePath mpName ips p = some pp) :
    env.statIsDir pp = true ∧ pp ≠ "" := by
  unfold resolvePluginPath at h
  cases hr : registryPath env ips (p.name ++ "@" ++ mpName) with
  | some ip =>
    rw [hr] at h
    have h2 : (some ip : Option String) = some pp := h
    injection h2 with h3
    subst h3
    obtain ⟨_, hne, hdir⟩ := registryPath_some env ips _ _ hr
    exact ⟨hdir, hne⟩
  | none =>
    rw [hr] at h
    cases hsrc : p.source with
    | str s =>
      rw [hsrc] at h
      have h2 : (if env.statIsDir (resolvePath marketplacePath s) = true
                 then some (resolvePath marketplacePath s) else none) = some pp := h
      by_cases hd : env.statIsDir (resolvePath marketplacePath s) = true
      · rw [if_pos hd] at h2
        injection h2 with h3
        subst h3
        exact ⟨hd, resolvePath_ne_empty marketplacePath s⟩
      · rw [if_neg hd] at h2
        exact Option.noConfusion h2
    | absent =>
      rw [hsrc] at h
      exact Option.noConfusion h
    | urlObj u =>
      rw [hsrc] at h
      exact Option.noConfusion h

lemma processPlugin_eq_some (env : Env) (marketplacePath mpName : String)
    (ips : List (String × String)) (p : MarketplacePlugin) (pp : String)
    (h1 : sourceTruthy p.source = true)
    (h2 : resolvePluginPath env marketplacePath mpName ips p = some pp) :
    processPlugin env marketplacePath mpName ips p =
      some { name := p.name
             version := versionOrDefault p.version
             description := p.description
             path := pp
             source := mpName ++ ":" ++ p.name
             marketplace := mpName
             category := p.category
             homepage := p.homepage
             tags := p.tags } := by
  simp [processPlugin, h1, h2]

lemma processPlugin_some_inv (env : Env) (marketplacePath mpName : String)
    (ips : List (String × String)) (p : MarketplacePlugin) (info : PluginInfo)
    (h : processPlugin env marketplacePath mpName ips p = some info) :
    sourceTruthy p.source = true ∧
    resolvePluginPath env marketplacePath mpName ips p = some info.path ∧
    info.version = versionOrDefault p.version ∧
    info.source = mpName ++ ":" ++ p.name := by
  unfold processPlugin at h
  split at h
  · next hsrc =>
    cases hr : resolvePluginPath env marketplacePath mpName ips p with
    | some pp =>
      rw [hr] at h
      injection h with h2
      subst h2
      exact ⟨hsrc, rfl, rfl, rfl⟩
    | none =>
      rw [hr] at h
      exact Option.noConfusion h
  · exact Option.noConfusion h

/-! ## C7 -/

/-- C7: the flat shape and the nested mcpServers shape of a plugin
descriptor yield identical validated server maps; the chosen object is the
value of mcpServers exactly when that value is a non-null non-array object,
otherwise the whole document; the validated map keeps exactly the entries
whose value is a non-null non-array object; and a PluginMcpConfig record is
emitted for a plugin if and only if at least one entry survives. -/
theorem c7_mcp_shapes (fields fs2 : List (String × Json)) (doc : Json) :
    (fields.find? (fun q => q.1 = "mcpServers") = none →
       validServersOf (Json.obj fields) =
         validServersOf (Json.obj [("mcpServers", Json.obj fields)]))
    ∧ (lookupField doc "mcpServers" = some (Json.obj fs2) →
        serversObjOf doc = Json.obj fs2)
    ∧ ((∀ g, lookupField doc "mcpServers" ≠ some (Json.obj g)) →
        serversObjOf doc = doc)
    ∧ (∀ k v, (k, v) ∈ validServersOf doc ↔
        ((k, v) ∈ jsEntries (serversObjOf doc) ∧ isObjVal v = true))
    ∧ (∀ (env : Env) (p : PluginInfo) (r : PluginMcpConfig),
        mcpConfigFor env p = some r ↔
          ∃ d, env.readMcp (joinP p.path ".mcp.json") = some d ∧
               validServersOf d ≠ [] ∧
               r.pluginSource = p.source ∧ r.mcpServers = validServersOf d) := by
  refine ⟨?_, ?_, ?_, ?_, ?_⟩
  · intro h
    simp [validServersOf, serversObjOf, lookupField, h, List.find?, jsEntries]
  · intro h
    simp [serversObjOf, h]
  · intro h
    unfold serversObjOf
    split
    · next g heq => exact absurd heq (h g)
    · rfl
  · intro k v
    simp [validServersOf, List.mem_filter]
  · intro env p r
    unfold mcpConfigFor
    cases hr : env.readMcp (joinP p.path ".mcp.json") with
    | none =>
      simp only []
      constructor
      · intro h; cases h
      · rintro ⟨d, hd, _⟩; cases hd
    | some d =>
      simp only []
      constructor
      · intro h
        by_cases he : (validServersOf d).isEmpty
        · rw [if_pos he] at h; cases h
        · rw [if_neg he] at h
          injection h with h2
          subst h2
          refine ⟨d, rfl, ?_, rfl, rfl⟩
          intro hnil
          rw [hnil] at he
          exact he rfl
      · rintro ⟨d2, hd2, hne, hsrc, hmap⟩
        injection hd2 with hd2e
        subst hd2e
        have he : (validServersOf d).isEmpty = false := by
          cases hv : validServersOf d with
          | nil => exact absurd hv hne
          | cons a l => rfl
        rw [he]
        simp only [Bool.false_eq_true, if_false]
        cases r with
        | mk ps ms =>
          simp only at hsrc hmap
          subst hsrc
          subst hmap
          rfl

/-- Witness for C7 at a concrete descriptor. -/
theorem c7_witness :
    validServersOf (Json.obj [("serverA", Json.obj [("command", Json.str "x")])]) =
      validServersOf
        (Json.obj [("mcpServers", Json.obj [("serverA", Json.obj [("command", Json.str "x")])])]) :=
  (c7_mcp_shapes [("serverA", Json.obj [("command", Json.str "x")])] [] Json.null).1 rfl

/-! ## C4 -/

/-- C4: a discovery call within 30000 ms of the corresponding cache slot
being populated returns the cached payload with the state unchanged, does
not consult the filesystem (the result does not depend on the environment),
and a second call within the window returns the identical payload. -/
theorem c4_cache_hit (env env2 : Env) (w : World) (now now2 : Nat)
    (ps : List PluginInfo) (t : Nat) (cs : List PluginMcpConfig) (t2 : Nat) :
    (w.cache.pluginCache = some (ps, t) → now - t < 30000 →
      discoverInstalledPlugins env w now = (ps, w)
      ∧ discoverInstalledPlugins env2 w now = discoverInstalledPlugins env w now
      ∧ (now2 - t < 30000 →
          (discoverInstalledPlugins env2 (discoverInstalledPlugins env w now).2 now2).1 = ps))
    ∧ (w.cache.mcpCache = some (cs, t2) → now - t2 < 30000 →
      discoverPluginMcpServers env w now = (cs, w)
      ∧ discoverPluginMcpServers env2 w now = discoverPluginMcpServers env w now
      ∧ (now2 - t2 < 30000 →
          (discoverPluginMcpServers env2 (discoverPluginMcpServers env w now).2 now2).1 = cs)) := by
  constructor
  · intro h hlt
    have h1 : discoverInstalledPlugins env w now = (ps, w) := by
      simp [discoverInstalledPlugins, h, CACHE_TTL_MS, hlt]
    have h2 : discoverInstalledPlugins env2 w now = (ps, w) := by
      simp [discoverInstalledPlugins, h, CACHE_TTL_MS, hlt]
    refine ⟨h1, h2.trans h1.symm, ?_⟩
    intro hlt2
    rw [h1]
    simp [discoverInstalledPlugins, h, CACHE_TTL_MS, hlt2]
  · intro h hlt
    have h1 : discoverPluginMcpServers env w now = (cs, w) := by
      simp [discoverPluginMcpServers, h, CACHE_TTL_MS, hlt]
    have h2 : discoverPluginMcpServers env2 w now = (cs, w) := by
      simp [discoverPluginMcpServers, h, CACHE_TTL_MS, hlt]
    refine ⟨h1, h2.trans h1.symm, ?_⟩
    intro hlt2
    rw [h1]
    simp [discoverPluginMcpServers, h, CACHE_TTL_MS, hlt2]

/-- An environment in which every filesystem query fails or is empty. -/
def emptyEnv : Env :=
  { home := "/h"
    accessOk := fun _ => false
    readdir := fun _ => none
    isDirentDir := fun _ _ => false
    readManifest := fun _ => none
    statIsDir := fun _ => false
    readMcp := fun _ => none }

/-- Witness for C4: both slots populated at time 5, queried at time 10. -/
theorem c4_witness :
    discoverInstalledPlugins emptyEnv ⟨none, ⟨some ([], 5), some ([], 5)⟩⟩ 10 =
        ([], ⟨none, ⟨some ([], 5), some ([], 5)⟩⟩)
    ∧ discoverPluginMcpServers emptyEnv ⟨none, ⟨some ([], 5), some ([], 5)⟩⟩ 10 =
        ([], ⟨none, ⟨some ([], 5), some ([], 5)⟩⟩) :=
  ⟨((c4_cache_hit emptyEnv emptyEnv ⟨none, ⟨some ([], 5), some ([], 5)⟩⟩ 10 10 [] 5 [] 5).1
      rfl (by decide)).1,
   ((c4_cache_hit emptyEnv emptyEnv ⟨none, ⟨some ([], 5), some ([], 5)⟩⟩ 10 10 [] 5 [] 5).2
      rfl (by decide)).1⟩

/-! ## C10 -/

/-- C10: on a cache miss with the marketplaces root missing or unreadable,
discoverInstalledPlugins returns the empty list and populates the plugin
cache slot with it, so every call in the following 30 seconds returns the
empty list against any environment (no rescan even if the directory appears
in the meantime). -/
theorem c10_missing_root (env : Env) (w : World) (now : Nat)
    (hmiss : ∀ c, w.cache.pluginCache = some c → 30000 ≤ now - c.2)
    (hroot : env.accessOk (marketplacesDirOf env.home) = false ∨
             env.readdir (marketplacesDirOf env.home) = none) :
    scanInstalledPlugins env w.registry = []
    ∧ discoverInstalledPlugins env w now =
        ([], { w with cache := { w.cache with pluginCache := some ([], now) } })
    ∧ ∀ (env2 : Env) (t2 : Nat), now ≤ t2 → t2 - now < 30000 →
        discoverInstalledPlugins env2
            { w with cache := { w.cache with pluginCache := some ([], now) } } t2 =
          ([], { w with cache := { w.cache with pluginCache := some ([], now) } }) := by
  have hscan : scanInstalledPlugins env w.registry = [] := by
    rcases hroot with h | h
    · simp [scanInstalledPlugins, h]
    · simp [scanInstalledPlugins, h]
  refine ⟨hscan, ?_, ?_⟩
  · unfold discoverInstalledPlugins
    cases hc : w.cache.pluginCache with
    | none => simp [scanAndCachePlugins, hscan]
    | some c =>
      have := hmiss c hc
      have hnlt : ¬ (now - c.2 < CACHE_TTL_MS) := by
        simp [CACHE_TTL_MS]; omega
      simp [hnlt, scanAndCachePlugins, hscan]
  · intro env2 t2 _ hlt2
    simp [discoverInstalledPlugins, CACHE_TTL_MS, hlt2]

/-- Witness for C10: empty cache, inaccessible root. -/
theorem c10_witness :
    discoverInstalledPlugins emptyEnv ⟨none, ⟨none, none⟩⟩ 0 =
      ([], ⟨none, ⟨some ([], 0), none⟩⟩) :=
  (c10_missing_root emptyEnv ⟨none, ⟨none, none⟩⟩ 0 (fun _ h => nomatch h)
    (Or.inl rfl)).2.1

/-! ## C3 -/

/-- C3: a registry entry whose recorded path is a directory is used as the
resolved path, taking precedence over relative resolution of a string
source; relative resolution is consulted only when the registry step
produced nothing (key absent, empty path, or not a directory). -/
theorem c3_registry_precedence (env : Env) (marketplacePath mpName : String)
    (ips : List (String × String)) (p : MarketplacePlugin) :
    (∀ ip, mapGet ips (p.name ++ "@" ++ mpName) = some ip → ip ≠ "" →
       env.statIsDir ip = true →
       resolvePluginPath env marketplacePath mpName ips p = some ip)
    ∧ (registryPath env ips (p.name ++ "@" ++ mpName) = none →
       ∀ s, p.source = SourceField.str s →
         resolvePluginPath env marketplacePath mpName ips p =
           (if env.statIsDir (resolvePath marketplacePath s) = true then
              some (resolvePath marketplacePath s) else none)) := by
  constructor
  · intro ip hget hne hdir
    have hreg : registryPath env ips (p.name ++ "@" ++ mpName) = some ip := by
      unfold registryPath
      rw [hget]
      show (if ip = "" then (none : Option String)
            else if env.statIsDir ip = true then some ip else none) = some ip
      rw [if_neg hne, if_pos hdir]
    unfold resolvePluginPath
    rw [hreg]
  · intro hreg s hs
    unfold resolvePluginPath
    rw [hreg, hs]

/-- Environment for the C3 witness: both the registry-recorded path and the
relative resolution of the string source exist as directories, and they
differ. -/
def envC3 : Env :=
  { home := "/h"
    accessOk := fun _ => false
    readdir := fun _ => none
    isDirentDir := fun _ _ => false
    readManifest := fun _ => none
    statIsDir := fun q => (q == "/registry/target") || (q == joinP "/mp" "./x")
    readMcp := fun _ => none }

def pC3 : MarketplacePlugin :=
  { name := "x", version := some "1.0.0", description := none
    source := SourceField.str "./x", category := none, homepage := none, tags := none }

/-- Witness for C3: the registry path wins even though the relative
resolution also denotes an existing directory that differs from it. -/
theorem c3_witness :
    resolvePluginPath envC3 "/mp" "m" [("x@m", "/registry/target")] pC3 =
        some "/registry/target"
    ∧ envC3.statIsDir (resolvePath "/mp" "./x") = true
    ∧ resolvePath "/mp" "./x" ≠ "/registry/target" :=
  ⟨(c3_registry_precedence envC3 "/mp" "m" [("x@m", "/registry/target")] pC3).1
      "/registry/target" rfl (by decide) (by decide),
   by decide, by decide⟩

/-! ## C9 -/

/-- C9: every emitted PluginInfo carries the manifest version when that is a
non-empty string and the literal 0.0.0 when the version is absent or empty;
the version field is never empty. -/
theorem c9_version_default (env : Env) (marketplacePath mpName : String)
    (ips : List (String × String)) (p : MarketplacePlugin) (info : PluginInfo)
    (h : processPlugin env marketplacePath mpName ips p = some info) :
    (p.version = none → info.version = "0.0.0")
    ∧ (p.version = some "" → info.version = "0.0.0")
    ∧ (∀ v, p.version = some v → v ≠ "" → info.version = v)
    ∧ info.version ≠ "" := by
  obtain ⟨-, -, hv, -⟩ := processPlugin_some_inv env marketplacePath mpName ips p info h
  refine ⟨?_, ?_, ?_, ?_⟩
  · intro hn; rw [hv, hn]; rfl
  · intro hn; rw [hv, hn]; rfl
  · intro v hn hvne
    rw [hv, hn]
    simp only [versionOrDefault, if_neg hvne]
  · rw [hv]
    cases hp : p.version with
    | none => decide
    | some s =>
      by_cases hs : s = ""
      · subst hs; decide
      · simp only [versionOrDefault, if_neg hs]
        exact hs

def envC9 : Env :=
  { home := "/h"
    accessOk := fun _ => false
    readdir := fun _ => none
    isDirentDir := fun _ _ => false
    readManifest := fun _ => none
    statIsDir := fun q => q == "/d"
    readMcp := fun _ => none }

def pC9 : MarketplacePlugin :=
  { name := "y", version := none, description := none
    source := SourceField.str "/d", category := none, homepage := none, tags := none }

/-- Witness for C9: a manifest entry without a version resolves to a
PluginInfo whose version is 0.0.0. -/
theorem c9_witness :
    (⟨"y", "0.0.0", none, "/d", "m:y", "m", none, none, none⟩ : PluginInfo).version
      = "0.0.0" :=
  (c9_version_default envC9 "/mp" "m" [] pC9
    ⟨"y", "0.0.0", none, "/d", "m:y", "m", none, none, none⟩ rfl).1 rfl

/-! ## C5 -/

lemma filterMap_processPlugin_all (env : Env) (marketplacePath mpName : String)
    (ips : List (String × String)) :
    ∀ ps : List MarketplacePlugin,
      (∀ p ∈ ps, sourceTruthy p.source = true ∧
        (resolvePluginPath env marketplacePath mpName ips p).isSome = true) →
      (ps.filterMap (processPlugin env marketplacePath mpName ips)).length = ps.length
      ∧ (ps.filterMap (processPlugin env marketplacePath mpName ips)).map (fun i => i.source)
          = ps.map (fun p => mpName ++ ":" ++ p.name) := by
  intro ps
  induction ps with
  | nil => intro _; exact ⟨rfl, rfl⟩
  | cons p rest ih =>
    intro hall
    obtain ⟨h1, h2⟩ := hall p (List.mem_cons_self p rest)
    obtain ⟨ihl, ihm⟩ := ih (fun q hq => hall q (List.mem_cons_of_mem p hq))
    obtain ⟨pp, hpp⟩ := Option.isSome_iff_exists.mp h2
    rw [List.filterMap_cons,
        processPlugin_eq_some env marketplacePath mpName ips p pp h1 hpp]
    constructor
    · simpa using ihl
    · simpa using ihm

lemma mem_filterMap_processPlugin (env : Env) (marketplacePath mpName : String)
    (ips : List (String × String)) (ps : List MarketplacePlugin) (info : PluginInfo)
    (h : info ∈ ps.filterMap (processPlugin env marketplacePath mpName ips)) :
    env.statIsDir info.path = true ∧ info.path ≠ "" := by
  rw [List.mem_filterMap] at h
  obtain ⟨p, _, hp⟩ := h
  obtain ⟨-, hres, -, -⟩ := processPlugin_some_inv env marketplacePath mpName ips p info hp
  exact resolvePluginPath_some env marketplacePath mpName ips p info.path hres

/-- C5: a marketplace whose manifest entries all carry a truthy source that
resolves to an existing directory contributes exactly one PluginInfo per
entry, in order, with source formatted marketplace:name; every emitted path
was checked to be a directory and is non-empty; an entry whose source is
falsy or whose path does not resolve is omitted entirely. -/
theorem c5_all_resolved (env : Env) (ips : List (String × String)) (d : String)
    (mj : MarketplaceJson) (ps : List MarketplacePlugin)
    (hdot : startsWithChar d '.' = false)
    (hdir : env.isDirentDir (marketplacesDirOf env.home) d = true)
    (hman : env.readManifest (manifestPathOf env.home d) = some mj)
    (hps : mj.plugins = some ps)
    (hall : ∀ p ∈ ps, sourceTruthy p.source = true ∧
      (resolvePluginPath env (joinP (marketplacesDirOf env.home) d) mj.name ips p).isSome
        = true) :
    (scanMarketplace env ips d).length = ps.length
    ∧ (scanMarketplace env ips d).map (fun i => i.source)
        = ps.map (fun p => mj.name ++ ":" ++ p.name)
    ∧ (∀ info ∈ scanMarketplace env ips d,
        env.statIsDir info.path = true ∧ info.path ≠ "")
    ∧ (∀ p : MarketplacePlugin,
        (sourceTruthy p.source = false ∨
         resolvePluginPath env (joinP (marketplacesDirOf env.home) d) mj.name ips p = none) →
        processPlugin env (joinP (marketplacesDirOf env.home) d) mj.name ips p = none) := by
  have hred : scanMarketplace env ips d =
      ps.filterMap (processPlugin env (joinP (marketplacesDirOf env.home) d) mj.name ips) := by
    simp [scanMarketplace, hdot, hdir, hman, hps]
  obtain ⟨hl, hm⟩ := filterMap_processPlugin_all env (joinP (marketplacesDirOf env.home) d)
    mj.name ips ps hall
  refine ⟨by rw [hred]; exact hl, by rw [hred]; exact hm, ?_, ?_⟩
  · intro info hmem
    rw [hred] at hmem
    exact mem_filterMap_processPlugin env _ mj.name ips ps info hmem
  · intro p hp
    rcases hp with hp | hp
    · simp [processPlugin, hp]
    · simp [processPlugin, hp]

def paC5 : MarketplacePlugin :=
  { name := "a", version := some "1.0.0", description := none
    source := SourceField.urlObj (some "https://e/a.git")
    category := none, homepage := none, tags := none }

def pbC5 : MarketplacePlugin :=
  { name := "b", version := none, description := none
    source := SourceField.str "./b", category := none, homepage := none, tags := none }

def mjC5 : MarketplaceJson := { name := "m", plugins := some [paC5, pbC5] }

/-- Environment for the C5 witness: one marketplace directory with a
two-entry manifest; entry a resolves through the registry map, entry b
through relative resolution. -/
def envC5 : Env :=
  { home := "/h"
    accessOk := fun q => q == marketplacesDirOf "/h"
    readdir := fun q => if q == marketplacesDirOf "/h" then some ["m"] else none
    isDirentDir := fun q d2 => (q == marketplacesDirOf "/h") && (d2 == "m")
    readManifest := fun q => if q == manifestPathOf "/h" "m" then some mjC5 else none
    statIsDir := fun q =>
      (q == "/ra") || (q == joinP (joinP (marketplacesDirOf "/h") "m") "./b")
    readMcp := fun _ => none }

/-- Witness for C5: both entries resolve, so the marketplace contributes
exactly two records with the expected source identifiers. -/
theorem c5_witness :
    (scanMarketplace envC5 [("a@m", "/ra")] "m").length = 2
    ∧ (scanMarketplace envC5 [("a@m", "/ra")] "m").map (fun i => i.source)
        = ["m:a", "m:b"] := by
  have h := c5_all_resolved envC5 [("a@m", "/ra")] "m" mjC5 [paC5, pbC5]
    rfl rfl rfl rfl (by decide)
  exact ⟨h.1, h.2.1.trans (by decide)⟩

/-! ## C6 -/

/-- C6: discoverAvailablePlugins emits exactly the manifest entries whose
source is the remote-url object variant with a truthy url and whose
composite key is absent from the registry map; string-sourced entries and
registry-present entries are never emitted; and the traversal never
consults the directory-existence oracle. -/
theorem c6_available (ips : List (String × String)) (mjName : String)
    (p : MarketplacePlugin) (a : AvailablePlugin) (env : Env) (f : String → Bool)
    (reg : Option InstalledPluginsJson) :
    (availEntry ips mjName p = some a ↔
       ∃ u, p.source = SourceField.urlObj (some u) ∧ u ≠ ""
            ∧ mapHas ips (p.name ++ "@" ++ mjName) = false
            ∧ a = { name := p.name, description := p.description, marketplace := mjName,
                    sourceUrl := u, category := p.category, homepage := p.homepage,
                    tags := p.tags })
    ∧ (∀ s, p.source = SourceField.str s → availEntry ips mjName p = none)
    ∧ (mapHas ips (p.name ++ "@" ++ mjName) = true → availEntry ips mjName p = none)
    ∧ discoverAvailablePlugins { env with statIsDir := f } reg
        = discoverAvailablePlugins env reg := by
  refine ⟨?_, ?_, ?_, rfl⟩
  · constructor
    · intro h
      unfold availEntry at h
      cases hsrc : p.source with
      | absent => rw [hsrc] at h; exact Option.noConfusion h
      | str s => rw [hsrc] at h; exact Option.noConfusion h
      | urlObj u =>
        cases u with
        | none => rw [hsrc] at h; exact Option.noConfusion h
        | some u2 =>
          rw [hsrc] at h
          have h2 : (if u2 = "" then (none : Option AvailablePlugin)
                     else if mapHas ips (p.name ++ "@" ++ mjName) = true then none
                     else some { name := p.name, description := p.description,
                                 marketplace := mjName, sourceUrl := u2,
                                 category := p.category, homepage := p.homepage,
                                 tags := p.tags }) = some a := h
          by_cases hu : u2 = ""
          · rw [if_pos hu] at h2; exact Option.noConfusion h2
          · rw [if_neg hu] at h2
            by_cases hh : mapHas ips (p.name ++ "@" ++ mjName) = true
            · rw [if_pos hh] at h2; exact Option.noConfusion h2
            · rw [if_neg hh] at h2
              injection h2 with h3
              refine ⟨u2, rfl, hu, ?_, h3.symm⟩
              revert hh
              cases mapHas ips (p.name ++ "@" ++ mjName) <;> simp
    · rintro ⟨u, hsrc, hu, hh, ha⟩
      subst ha
      unfold availEntry
      rw [hsrc]
      show (if u = "" then (none : Option AvailablePlugin)
            else if mapHas ips (p.name ++ "@" ++ mjName) = true then none
            else some { name := p.name, description := p.description,
                        marketplace := mjName, sourceUrl := u,
                        category := p.category, homepage := p.homepage,
                        tags := p.tags }) = _
      rw [if_neg hu, hh]
      simp
  · intro s hs
    simp [availEntry, hs]
  · intro hh
    cases hsrc : p.source with
    | absent => simp [availEntry, hsrc]
    | str s => simp [availEntry, hsrc]
    | urlObj u =>
      cases u with
      | none => simp [availEntry, hsrc]
      | some u2 =>
        by_cases hu : u2 = "" <;> simp [availEntry, hsrc, hu, hh]

def pC6 : MarketplacePlugin :=
  { name := "z", version := none, description := none
    source := SourceField.urlObj (some "https://e/z.git")
    category := none, homepage := none, tags := none }

def aC6 : AvailablePlugin :=
  { name := "z", description := none, marketplace := "m"
    sourceUrl := "https://e/z.git", category := none, homepage := none, tags := none }

/-- Witness for C6: a url-sourced entry with no registry key is emitted. -/
theorem c6_witness : availEntry [] "m" pC6 = some aC6 :=
  ((c6_available [] "m" pC6 aC6 emptyEnv (fun _ => false) none).1).mpr
    ⟨"https://e/z.git", rfl, by decide, rfl, rfl⟩

/-! ## Install and uninstall helper lemmas -/

lemma installPlugin_success (ienv : InstallEnv) (mp pn url : String) (w : World)
    (h : (installPlugin ienv mp pn url w).1.success = true) :
    ienv.mkdirErr = none ∧ ienv.cloneErr = none ∧ ienv.renameErr = none
    ∧ ienv.writeErr = none
    ∧ installPlugin ienv mp pn url w =
      ({ success := true
         installPath := some (joinP (cacheBaseOf ienv.home mp pn) (ienv.pkgVersion.getD "0.0.0"))
         error := none },
       { registry := some (pushEntry (readInstalledPluginsJson w) (pn ++ "@" ++ mp)
           { scope := "user"
             installPath := joinP (cacheBaseOf ienv.home mp pn) (ienv.pkgVersion.getD "0.0.0")
             version := ienv.pkgVersion.getD "0.0.0"
             installedAt := ienv.nowIso
             lastUpdated := ienv.nowIso
             gitCommitSha := ienv.gitSha })
         cache := { pluginCache := none, mcpCache := none } }) := by
  unfold installPlugin at h ⊢
  cases hm : ienv.mkdirErr with
  | some m =>
    rw [hm] at h
    exact Bool.noConfusion h
  | none =>
    rw [hm] at h
    cases hc : ienv.cloneErr with
    | some m =>
      rw [hc] at h
      exact Bool.noConfusion h
    | none =>
      rw [hc] at h
      cases hr : ienv.renameErr with
      | some m =>
        rw [hr] at h
        exact Bool.noConfusion h
      | none =>
        rw [hr] at h
        cases hw : ienv.writeErr with
        | some m =>
          rw [hw] at h
          exact Bool.noConfusion h
        | none => exact ⟨rfl, rfl, rfl, rfl, rfl⟩

lemma installPlugin_preWriteFail (ienv : InstallEnv) (mp pn url : String) (w : World)
    (h : ienv.mkdirErr ≠ none ∨ ienv.cloneErr ≠ none ∨ ienv.renameErr ≠ none) :
    (installPlugin ienv mp pn url w).1.success = false
    ∧ (installPlugin ienv mp pn url w).1.error ≠ none
    ∧ (installPlugin ienv mp pn url w).2 = w := by
  unfold installPlugin
  cases hm : ienv.mkdirErr with
  | some m => exact ⟨rfl, fun hh => Option.noConfusion hh, rfl⟩
  | none =>
    cases hc : ienv.cloneErr with
    | some m => exact ⟨rfl, fun hh => Option.noConfusion hh, rfl⟩
    | none =>
      cases hr : ienv.renameErr with
      | some m => exact ⟨rfl, fun hh => Option.noConfusion hh, rfl⟩
      | none =>
        rcases h with h | h | h
        · exact absurd hm h
        · exact absurd hc h
        · exact absurd hr h

lemma uninstallPlugin_success (uenv : UninstallEnv) (mp pn : String) (w : World)
    (h : (uninstallPlugin uenv mp pn w).result.success = true) :
    uenv.writeErr = none
    ∧ (uninstallPlugin uenv mp pn w).world =
      { registry := some { version := (readInstalledPluginsJson w).version
                           plugins := (readInstalledPluginsJson w).plugins.filter
                             (fun kv => kv.1 ≠ pn ++ "@" ++ mp) }
        cache := { pluginCache := none, mcpCache := none } } := by
  unfold uninstallPlugin at h ⊢
  cases hw : uenv.writeErr with
  | some m =>
    rw [hw] at h
    exact Bool.noConfusion h
  | none => exact ⟨rfl, rfl⟩

lemma find?_filter_append (m : List (String × String)) (k k2 v : String) (h : k2 ≠ k) :
    ((m.filter (fun q => q.1 ≠ k2)) ++ [(k2, v)]).find? (fun q => q.1 = k)
      = m.find? (fun q => q.1 = k) := by
  induction m with
  | nil =>
    show List.find? (fun q => q.1 = k) [(k2, v)] = none
    simp only [List.find?]
    rw [decide_eq_false h]
  | cons a rest ih =>
    by_cases hk2 : a.1 = k2
    · have hfa : List.filter (fun q => decide (q.1 ≠ k2)) (a :: rest)
          = List.filter (fun q => decide (q.1 ≠ k2)) rest := by
        simp [List.filter_cons, hk2]
      have hk : decide (a.1 = k) = false := decide_eq_false (by rw [hk2]; exact h)
      rw [hfa, ih]
      show List.find? (fun q => q.1 = k) rest = List.find? (fun q => q.1 = k) (a :: rest)
      simp only [List.find?, hk]
    · have hfa : List.filter (fun q => decide (q.1 ≠ k2)) (a :: rest)
          = a :: List.filter (fun q => decide (q.1 ≠ k2)) rest := by
        simp [List.filter_cons, hk2]
      rw [hfa, List.cons_append]
      by_cases hk : a.1 = k
      · have hd : decide (a.1 = k) = true := decide_eq_true hk
        simp only [List.find?, hd]
      · have hd : decide (a.1 = k) = false := decide_eq_false hk
        simp only [List.find?, hd]
        exact ih

lemma mapGet_mapSet_ne (m : List (String × String)) (k k2 v : String) (h : k2 ≠ k) :
    mapGet (mapSet m k2 v) k = mapGet m k := by
  unfold mapGet mapSet
  rw [find?_filter_append m k k2 v h]

lemma mapGet_installedPathsStep_ne (acc : List (String × String))
    (kv : String × List InstalledPluginEntry) (k : String) (h : kv.1 ≠ k) :
    mapGet (installedPathsStep acc kv) k = mapGet acc k := by
  unfold installedPathsStep
  cases hl : kv.2.getLast? with
  | none => rfl
  | some latest =>
    show mapGet (if latest.installPath = "" then acc
                 else mapSet acc kv.1 latest.installPath) k = mapGet acc k
    by_cases hp : latest.installPath = ""
    · rw [if_pos hp]
    · rw [if_neg hp]
      exact mapGet_mapSet_ne acc k kv.1 latest.installPath h

lemma mapGet_foldl_none (k : String) :
    ∀ (l : List (String × List InstalledPluginEntry)) (acc : List (String × String)),
      (∀ kv ∈ l, kv.1 ≠ k) → mapGet acc k = none →
      mapGet (l.foldl installedPathsStep acc) k = none := by
  intro l
  induction l with
  | nil => intro acc _ hacc; exact hacc
  | cons kv rest ih =>
    intro acc hall hacc
    rw [List.foldl_cons]
    refine ih (installedPathsStep acc kv)
      (fun q hq => hall q (List.mem_cons_of_mem kv hq)) ?_
    rw [mapGet_installedPathsStep_ne acc kv k (hall kv (List.mem_cons_self kv rest))]
    exact hacc

lemma mapGet_loadInstalled_filtered (doc : InstalledPluginsJson) (k : String)
    (h : ∀ kv ∈ doc.plugins, kv.1 ≠ k) :
    mapGet (loadInstalledPluginPaths (some doc)) k = none := by
  unfold loadInstalledPluginPaths
  exact mapGet_foldl_none k doc.plugins [] h rfl

lemma processPlugin_no_registry_no_string (env : Env) (mpPath mpName : String)
    (ips : List (String × String)) (p : MarketplacePlugin)
    (hreg : mapGet ips (p.name ++ "@" ++ mpName) = none)
    (hstr : ∀ s, p.source ≠ SourceField.str s) :
    processPlugin env mpPath mpName ips p = none := by
  have hrp : registryPath env ips (p.name ++ "@" ++ mpName) = none := by
    unfold registryPath
    rw [hreg]
  cases hsrc : p.source with
  | str s => exact absurd hsrc (hstr s)
  | absent => simp [processPlugin, sourceTruthy, hsrc]
  | urlObj u => simp [processPlugin, resolvePluginPath, hrp, hsrc, sourceTruthy]

/-! ## C1 -/

def w0 : World :=
  { registry := some { version := 2, plugins := [] }
    cache := { pluginCache := none, mcpCache := none } }

/-- An install run in which the version read fails (no readable
package.json with a string version field) while every other step
succeeds. -/
def ienvNoPkg : InstallEnv :=
  { home := "/h", mkdirErr := none, cleanupFails := false, cloneErr := none
    pkgVersion := none, gitSha := some "c0ffee", rmOldVersionFails := false
    renameErr := none, writeErr := none, nowIso := "2026-01-01T00:00:00.000Z" }

/-- Counterexample to C1 as stated: the version read is a step before the
registry write, and here it fails, yet the call returns success (not a
failure result) and the registry document is mutated (appended to), with
the version defaulted to 0.0.0. -/
theorem c1_counterexample :
    ienvNoPkg.pkgVersion = none
    ∧ (installPlugin ienvNoPkg "m" "p" "u" w0).1.success = true
    ∧ (installPlugin ienvNoPkg "m" "p" "u" w0).1.installPath
        = some "/h/.claude/plugins/cache/m/p/0.0.0"
    ∧ (installPlugin ienvNoPkg "m" "p" "u" w0).2.registry ≠ w0.registry := by
  refine ⟨rfl, rfl, rfl, ?_⟩
  decide

/-- C1 amended: a failure of the cache-directory creation, the clone
(including its timeout) or the move into the versioned directory yields a
failure result with a message and leaves the world (registry included)
untouched; version-read and commit-hash-read failures are tolerated with
defaults and do not fail the call; on success every fallible step
succeeded and the registry gained exactly one appended entry. -/
theorem c1_install_errors (ienv : InstallEnv) (mp pn url : String) (w : World) :
    ((ienv.mkdirErr ≠ none ∨ ienv.cloneErr ≠ none ∨ ienv.renameErr ≠ none) →
       (installPlugin ienv mp pn url w).1.success = false
       ∧ (installPlugin ienv mp pn url w).1.error ≠ none
       ∧ (installPlugin ienv mp pn url w).2 = w)
    ∧ ((installPlugin ienv mp pn url w).1.success = true →
       ienv.mkdirErr = none ∧ ienv.cloneErr = none ∧ ienv.renameErr = none
       ∧ ienv.writeErr = none
       ∧ (installPlugin ienv mp pn url w).2.registry
           = some (pushEntry (readInstalledPluginsJson w) (pn ++ "@" ++ mp)
               { scope := "user"
                 installPath := joinP (cacheBaseOf ienv.home mp pn)
                   (ienv.pkgVersion.getD "0.0.0")
                 version := ienv.pkgVersion.getD "0.0.0"
                 installedAt := ienv.nowIso
                 lastUpdated := ienv.nowIso
                 gitCommitSha := ienv.gitSha })) := by
  constructor
  · exact installPlugin_preWriteFail ienv mp pn url w
  · intro h
    obtain ⟨h1, h2, h3, h4, h5⟩ := installPlugin_success ienv mp pn url w h
    exact ⟨h1, h2, h3, h4, by rw [h5]⟩

/-- An install run whose clone step fails. -/
def ienvCloneFail : InstallEnv :=
  { home := "/h", mkdirErr := none, cleanupFails := false
    cloneErr := some "clone timed out after 120000 ms", pkgVersion := none
    gitSha := none, rmOldVersionFails := false, renameErr := none, writeErr := none
    nowIso := "2026-01-01T00:00:00.000Z" }

/-- Witness for the amended C1: a failed clone yields a failure result and
an untouched world. -/
theorem c1_witness :
    (installPlugin ienvCloneFail "m" "p" "u" w0).1.success = false
    ∧ (installPlugin ienvCloneFail "m" "p" "u" w0).2 = w0 := by
  have h := (c1_install_errors ienvCloneFail "m" "p" "u" w0).1
    (Or.inr (Or.inl (fun hh => Option.noConfusion hh)))
  exact ⟨h.1, h.2.2⟩

/-! ## C2 -/

/-- C2 amended: a successful install and a successful uninstall leave both
cache slots cleared, so the next discovery call of either kind performs a
fresh filesystem scan regardless of the elapsed time (after an install that
scan sees whatever the post-install filesystem and registry hold, in
particular the new plugin); after an uninstall the plugin is no longer
resolved through the registry, and is excluded whenever its manifest source
is not a local path string. -/
theorem c2_cache_invalidation (ienv : InstallEnv) (mp pn url : String) (w : World)
    (uenv : UninstallEnv) (mp2 pn2 : String) (w2 : World) (env : Env) (now : Nat) :
    ((installPlugin ienv mp pn url w).1.success = true →
       (installPlugin ienv mp pn url w).2.cache.pluginCache = none
       ∧ (installPlugin ienv mp pn url w).2.cache.mcpCache = none
       ∧ (discoverInstalledPlugins env (installPlugin ienv mp pn url w).2 now).1
           = scanInstalledPlugins env (installPlugin ienv mp pn url w).2.registry
       ∧ (discoverPluginMcpServers env (installPlugin ienv mp pn url w).2 now).1
           = (scanInstalledPlugins env (installPlugin ienv mp pn url w).2.registry).filterMap
               (mcpConfigFor env))
    ∧ ((uninstallPlugin uenv mp2 pn2 w2).result.success = true →
       (uninstallPlugin uenv mp2 pn2 w2).world.cache.pluginCache = none
       ∧ (uninstallPlugin uenv mp2 pn2 w2).world.cache.mcpCache = none
       ∧ (discoverInstalledPlugins env (uninstallPlugin uenv mp2 pn2 w2).world now).1
           = scanInstalledPlugins env (uninstallPlugin uenv mp2 pn2 w2).world.registry
       ∧ (∀ (env2 : Env) (mpPath : String) (p : MarketplacePlugin),
           p.name = pn2 → (∀ s, p.source ≠ SourceField.str s) →
           processPlugin env2 mpPath mp2
             (loadInstalledPluginPaths (uninstallPlugin uenv mp2 pn2 w2).world.registry) p
             = none)) := by
  constructor
  · intro h
    obtain ⟨-, -, -, -, h5⟩ := installPlugin_success ienv mp pn url w h
    rw [h5]
    refine ⟨rfl, rfl, ?_, ?_⟩
    · simp [discoverInstalledPlugins, scanAndCachePlugins]
    · simp [discoverPluginMcpServers, scanAndCacheMcp, discoverInstalledPlugins,
        scanAndCachePlugins]
  · intro h
    obtain ⟨-, h2⟩ := uninstallPlugin_success uenv mp2 pn2 w2 h
    rw [h2]
    refine ⟨rfl, rfl, ?_, ?_⟩
    · simp [discoverInstalledPlugins, scanAndCachePlugins]
    · intro env2 mpPath p hname hstr
      refine processPlugin_no_registry_no_string env2 mpPath mp2 _ p ?_ hstr
      rw [hname]
      refine mapGet_loadInstalled_filtered _ _ ?_
      intro kv hkv
      rw [List.mem_filter] at hkv
      simpa using hkv.2

def pC2 : MarketplacePlugin :=
  { name := "p", version := some "1.0.0", description := none
    source := SourceField.urlObj (some "u"), category := none, homepage := none
    tags := none }

def mjC2 : MarketplaceJson := { name := "m", plugins := some [pC2] }

/-- World before the C2 install: both cache slots were populated at time
1000 with results that do not contain plugin p. -/
def wC2 : World :=
  { registry := some { version := 2, plugins := [] }
    cache := { pluginCache := some ([], 1000), mcpCache := some ([], 1000) } }

def ienvC2 : InstallEnv :=
  { home := "/h", mkdirErr := none, cleanupFails := false, cloneErr := none
    pkgVersion := some "1.0.0", gitSha := some "abc", rmOldVersionFails := false
    renameErr := none, writeErr := none, nowIso := "T" }

/-- Environment after the C2 install: the marketplace manifest lists the
url-sourced plugin p and the freshly cloned versioned directory exists. -/
def envC2 : Env :=
  { home := "/h"
    accessOk := fun q => q == marketplacesDirOf "/h"
    readdir := fun q => if q == marketplacesDirOf "/h" then some ["m"] else none
    isDirentDir := fun q d2 => (q == marketplacesDirOf "/h") && (d2 == "m")
    readManifest := fun q => if q == manifestPathOf "/h" "m" then some mjC2 else none
    statIsDir := fun q => q == "/h/.claude/plugins/cache/m/p/1.0.0"
    readMcp := fun _ => none }

/-- World before an uninstall of plugin p from marketplace m: the registry
records the install at /old, and both cache slots are populated (at time
0). -/
def entryC8 : InstalledPluginEntry :=
  { scope := "user", installPath := "/old", version := "1.0.0",
    installedAt := "t", lastUpdated := "t", gitCommitSha := none }

def w8 : World :=
  { registry := some { version := 2, plugins := [("p@m", [entryC8])] },
    cache := { pluginCache := some ([], 0), mcpCache := some ([], 0) } }

def mjC8 : MarketplaceJson :=
  { name := "m"
    plugins := some [{ name := "p", version := some "1.0.0", description := none
                       source := SourceField.str "./p", category := none
                       homepage := none, tags := none }] }

/-- Environment after that uninstall: the manifest declares plugin p with a
local string source whose relative resolution exists as a directory. -/
def envC8 : Env :=
  { home := "/h"
    accessOk := fun q => q == marketplacesDirOf "/h"
    readdir := fun q => if q == marketplacesDirOf "/h" then some ["m"] else none
    isDirentDir := fun q d2 => (q == marketplacesDirOf "/h") && (d2 == "m")
    readManifest := fun q => if q == manifestPathOf "/h" "m" then some mjC8 else none
    statIsDir := fun q => q == joinP (joinP (marketplacesDirOf "/h") "m") "./p"
    readMcp := fun _ => none }

/-- Counterexample to C2 as stated: the uninstall succeeds and clears both
cache slots, fewer than 30 seconds have passed since the cache population
at time 0 (the pre-uninstall call at time 100 still serves the stale empty
list), yet the discovery call issued immediately after the uninstall does
not exclude the plugin: its fresh scan re-includes p through the local
string source of the manifest. -/
theorem c2_counterexample :
    (uninstallPlugin ⟨false, none⟩ "m" "p" w8).result.success = true
    ∧ (uninstallPlugin ⟨false, none⟩ "m" "p" w8).world.cache.pluginCache = none
    ∧ (uninstallPlugin ⟨false, none⟩ "m" "p" w8).world.cache.mcpCache = none
    ∧ (discoverInstalledPlugins envC8 w8 100).1 = []
    ∧ ((discoverInstalledPlugins envC8 (uninstallPlugin ⟨false, none⟩ "m" "p" w8).world
          100).1.map (fun i => i.name)) = ["p"] := by
  refine ⟨rfl, rfl, rfl, rfl, ?_⟩
  decide

/-- Witness for the amended C2: at time 2000, within the TTL of the
population at time 1000, discovery on the pre-install world still serves
the stale empty list, while discovery right after the successful install
sees plugin p; and after a successful uninstall the caches are cleared and
the url-sourced plugin is no longer discovered. -/
theorem c2_witness :
    (installPlugin ienvC2 "m" "p" "u" wC2).1.success = true
    ∧ (installPlugin ienvC2 "m" "p" "u" wC2).2.cache.pluginCache = none
    ∧ (installPlugin ienvC2 "m" "p" "u" wC2).2.cache.mcpCache = none
    ∧ ((discoverInstalledPlugins envC2 (installPlugin ienvC2 "m" "p" "u" wC2).2 2000).1.map
        (fun i => i.name)) = ["p"]
    ∧ (discoverInstalledPlugins envC2 wC2 2000).1 = []
    ∧ (uninstallPlugin ⟨false, none⟩ "m" "p" w8).world.cache.pluginCache = none
    ∧ processPlugin envC2 "/mp" "m"
        (loadInstalledPluginPaths (uninstallPlugin ⟨false, none⟩ "m" "p" w8).world.registry)
        pC2 = none := by
  have h := (c2_cache_invalidation ienvC2 "m" "p" "u" wC2 ⟨false, none⟩ "m" "p" w8
    envC2 2000).1 rfl
  have h2 := (c2_cache_invalidation ienvC2 "m" "p" "u" wC2 ⟨false, none⟩ "m" "p" w8
    envC2 2000).2 rfl
  refine ⟨rfl, h.1, h.2.1, ?_, rfl, h2.1, ?_⟩
  · rw [h.2.2.1]
    decide
  · exact h2.2.2.2 envC2 "/mp" pC2 rfl (fun s hs => SourceField.noConfusion hs)

/-! ## C8 -/

lemma find?_filter_ne_none (l : List (String × List InstalledPluginEntry)) (k : String) :
    (l.filter (fun kv => kv.1 ≠ k)).find? (fun kv => kv.1 = k) = none := by
  induction l with
  | nil => rfl
  | cons a rest ih =>
    by_cases ha : a.1 = k
    · simp [List.filter_cons, ha, ih]
    · simp [List.filter_cons, ha, List.find?, ih]

/-- Counterexample to C8 as stated: the uninstall succeeds, removes the
recorded directory and deletes the registry key, yet the very next
discovery call still includes plugin p, because the manifest declares a
local string source that resolves to an existing directory. -/
theorem c8_counterexample :
    (uninstallPlugin ⟨false, none⟩ "m" "p" w8).result.success = true
    ∧ (uninstallPlugin ⟨false, none⟩ "m" "p" w8).removedDir = some "/old"
    ∧ ((discoverInstalledPlugins envC8 (uninstallPlugin ⟨false, none⟩ "m" "p" w8).world
          100).1.map (fun i => i.name)) = ["p"] := by
  refine ⟨rfl, rfl, ?_⟩
  decide

/-- C8 amended: a successful uninstall reports the latest entry's recorded
directory for removal (tolerating removal failure), deletes the key with
its entire history from the persisted registry, and clears both cache
slots; a subsequent discovery no longer resolves the plugin through the
registry, and excludes it altogether whenever its manifest source is not a
local path string. -/
theorem c8_uninstall_effects (uenv : UninstallEnv) (mp pn : String) (w : World)
    (hw : uenv.writeErr = none) :
    (uninstallPlugin uenv mp pn w).result.success = true
    ∧ (∀ kv, (readInstalledPluginsJson w).plugins.find? (fun q => q.1 = pn ++ "@" ++ mp)
          = some kv →
        ∀ e, kv.2.getLast? = some e → e.installPath ≠ "" →
          (uninstallPlugin uenv mp pn w).removedDir = some e.installPath)
    ∧ (uninstallPlugin uenv mp pn w).world.registry
        = some { version := (readInstalledPluginsJson w).version
                 plugins := (readInstalledPluginsJson w).plugins.filter
                   (fun kv => kv.1 ≠ pn ++ "@" ++ mp) }
    ∧ (∀ doc, (uninstallPlugin uenv mp pn w).world.registry = some doc →
        doc.plugins.find? (fun kv => kv.1 = pn ++ "@" ++ mp) = none)
    ∧ (uninstallPlugin uenv mp pn w).world.cache.pluginCache = none
    ∧ (uninstallPlugin uenv mp pn w).world.cache.mcpCache = none
    ∧ (∀ b, uninstallPlugin { uenv with rmFails := b } mp pn w
        = uninstallPlugin uenv mp pn w)
    ∧ (∀ (env : Env) (mpPath : String) (p : MarketplacePlugin),
        p.name = pn → (∀ s, p.source ≠ SourceField.str s) →
        processPlugin env mpPath mp
          (loadInstalledPluginPaths (uninstallPlugin uenv mp pn w).world.registry) p
          = none) := by
  have hreg : (uninstallPlugin uenv mp pn w).world.registry
      = some { version := (readInstalledPluginsJson w).version
               plugins := (readInstalledPluginsJson w).plugins.filter
                 (fun kv => kv.1 ≠ pn ++ "@" ++ mp) } := by
    simp [uninstallPlugin, hw]
  refine ⟨by simp [uninstallPlugin, hw], ?_, hreg, ?_,
    by simp [uninstallPlugin, hw, clearPluginCache],
    by simp [uninstallPlugin, hw, clearPluginCache], fun b => rfl, ?_⟩
  · intro kv hkv e he hne
    simp [uninstallPlugin, hw, hkv, he, hne]
  · intro doc hdoc
    rw [hreg] at hdoc
    injection hdoc with hd
    subst hd
    exact find?_filter_ne_none _ _
  · intro env mpPath p hname hstr
    refine processPlugin_no_registry_no_string env mpPath mp _ p ?_ hstr
    rw [hreg, hname]
    refine mapGet_loadInstalled_filtered _ _ ?_
    intro kv hkv
    rw [List.mem_filter] at hkv
    simpa using hkv.2

/-- Witness for the amended C8 at a concrete world: the registry key is
deleted entirely. -/
theorem c8_witness :
    (uninstallPlugin ⟨false, none⟩ "m" "x" w8).world.registry
      = some { version := 2, plugins := [("p@m", [entryC8])] }
    ∧ (uninstallPlugin ⟨false, none⟩ "m" "p" w8).world.registry
      = some { version := 2, plugins := [] } := by
  constructor
  · exact (c8_uninstall_effects ⟨false, none⟩ "m" "x" w8 rfl).2.2.1.trans (by decide)
  · exact (c8_uninstall_effects ⟨false, none⟩ "m" "p" w8 rfl).2.2.1.trans (by decide)

end Plugins
